import Mathlib

/-!
Verification development for the universal-block-cli transcoder.

The embedding follows the four source modules:
  * `src/tagConfig.js`      — the Tag Policy Table (`tagConfigs`, `getTagConfig`)
  * `src/htmlToBlocks.js`   — the forward transcoder (`parseHTMLToBlocks`, `nodeToBlock`)
  * `src/blocksToHtml.js`   — the reverse transcoder (`parseBlocksToHTML`, `blockToHTML`)
  * `src/blocksToWpMarkup.js` — the markup serializer (`parseBlocksToWPMarkup`, `blockToWPMarkup`)

JavaScript dynamic values are embedded as follows: a JS object field that may be
absent is an `Option`; a JS `null`/non-array argument is `Option.none` at the
call boundary; JS string/boolean fields are `String`/`Bool`; attribute maps are
association lists in insertion order (JS object key order); `Math.random` is an
oracle stream `g : Nat -> Nat` together with a call counter, each call reading
`g ctr % 16` (the code only uses `Math.random() * 16 | 0`).
-/

/-- A single quote character (written via its code point). -/
def squoteChar : Char := Char.ofNat 39

/-- The one-character string containing a single quote. -/
def squote : String := String.singleton squoteChar

/-- `toLowerCase` as JS/the DOM use it: character-wise ASCII lowering
(kernel-reducible form of `String.toLower`). -/
def jsToLower (s : String) : String := String.mk (s.toList.map Char.toLower)

/-- `String.prototype.trim`: strip leading and trailing whitespace
(kernel-reducible form of `String.trim`). -/
def jsTrim (s : String) : String :=
  String.mk (((s.toList.dropWhile Char.isWhitespace).reverse.dropWhile
    Char.isWhitespace).reverse)

/-- Apply `f` to every character of `s` and concatenate the pieces. -/
def expandChars (f : Char → String) (s : String) : String :=
  String.mk (List.flatten (s.toList.map (fun c => (f c).toList)))

/-- One global, left-to-right, non-overlapping replacement pass
(`String.prototype.replace` with a `/g` string pattern); `fuel` bounds the scan
(one unit per consumed character suffices). -/
def replaceAllGo (pat rep : List Char) (fuel : Nat) (cs : List Char) : List Char :=
  match fuel with
  | 0 => cs
  | fuel' + 1 =>
    match cs with
    | [] => []
    | c :: tl =>
      if pat ≠ [] ∧ pat.isPrefixOf cs then
        rep ++ replaceAllGo pat rep fuel' (cs.drop pat.length)
      else
        c :: replaceAllGo pat rep fuel' tl

/-- Replace all occurrences of `pat` in `s` by `rep` (kernel-reducible form of
`String.replace`). -/
def replaceAll (s pat rep : String) : String :=
  String.mk (replaceAllGo pat.toList rep.toList s.length s.toList)

/-- `String.prototype.split` on a single separator character (kernel-reducible
form of `String.splitOn` for the one-character separators the code uses). -/
def splitOnCharGo (sep : Char) : List Char → List Char → List String
  | [], acc => [String.mk acc.reverse]
  | c :: tl, acc =>
    if c = sep then String.mk acc.reverse :: splitOnCharGo sep tl []
    else splitOnCharGo sep tl (c :: acc)

/-- `s.split(sep)` for a one-character separator. -/
def splitOnChar (sep : Char) (s : String) : List String :=
  splitOnCharGo sep s.toList []

/-- `Array.prototype.join(sep)` on a list of strings. -/
def joinSep (sep : String) : List String → String
  | [] => ""
  | [a] => a
  | a :: b :: tl => a ++ sep ++ joinSep sep (b :: tl)

/-- Concatenation of a list of strings (`foldr` form, so that
`strConcat (a :: l) = a ++ strConcat l` holds definitionally). -/
def strConcat (l : List String) : String := l.foldr (· ++ ·) ""

/-- `'s'.repeat(n)` — `n` copies of `s` concatenated. -/
def repeatStr (s : String) : Nat → String
  | 0 => ""
  | n + 1 => s ++ repeatStr s n

/-- Entry of the Tag Policy Table (`src/tagConfig.js`, object values of `tagConfigs`). -/
structure TagConfig where
  label : String
  category : String
  description : String
  contentType : String
  selfClosing : Bool
deriving Repr, DecidableEq

/-- `tagConfigs` from `src/tagConfig.js`: the three dynamic-tag policy entries. -/
def tagConfigs : List (String × TagConfig) :=
  [("set", ⟨"Set", "dynamic", "Sets variables using raw Twig expressions", "empty", true⟩),
   ("loop", ⟨"Loop", "dynamic", "Repeats content based on dynamic data", "blocks", false⟩),
   ("if", ⟨"If", "dynamic", "Conditionally displays content", "blocks", false⟩)]

/-- `getTagConfig` from `src/tagConfig.js`: case-insensitive total lookup,
`tagConfigs[tagName.toLowerCase()] || null`. -/
def getTagConfig (tagName : String) : Option TagConfig :=
  (tagConfigs.find? (fun p => p.1 = jsToLower tagName)).map (·.2)

/-- The `uiState` sub-object set by the forward transcoder (`src/htmlToBlocks.js`). -/
structure UiState where
  tagCategory : Option String := none
  selectedTagName : Option String := none
  selectedContentType : Option String := none
deriving Repr, DecidableEq

/-- The `attributes` object of a block. A field that the underlying JS object may
lack is an `Option` (`none` = key absent / `undefined`). Field order mirrors the
insertion order used by `nodeToBlock` in `src/htmlToBlocks.js`. -/
structure BlockAttrs where
  blockName : Option String := none
  tagName : Option String := none
  category : Option String := none
  contentType : Option String := none
  selfClosing : Option Bool := none
  globalAttrs : Option (List (String × String)) := none
  uiState : Option UiState := none
  className : Option String := none
  content : Option String := none
  isDynamic : Option Bool := none
  elementType : Option String := none
deriving Repr, DecidableEq

mutual
/-- A block object (WordPress-compatible structure created by `createBlock` in
`src/htmlToBlocks.js`): `clientId`, `name`, `isValid`, `attributes`, `innerBlocks`. -/
inductive Block : Type where
  | mk (clientId : String) (name : String) (isValid : Bool)
       (attributes : BlockAttrs) (innerBlocks : BlockSeq)

/-- A JS array of blocks; an entry is `none` when the array slot holds
`null`/`undefined`/a non-block value. -/
inductive BlockSeq : Type where
  | nil
  | cons (hd : Option Block) (tl : BlockSeq)
end

/-- `block.clientId`. -/
def Block.clientId : Block → String
  | .mk c _ _ _ _ => c

/-- `block.name`. -/
def Block.name : Block → String
  | .mk _ n _ _ _ => n

/-- `block.isValid`. -/
def Block.isValid : Block → Bool
  | .mk _ _ v _ _ => v

/-- `block.attributes`. -/
def Block.attributes : Block → BlockAttrs
  | .mk _ _ _ a _ => a

/-- `block.innerBlocks`. -/
def Block.innerBlocks : Block → BlockSeq
  | .mk _ _ _ _ i => i

/-- Concatenation of two block arrays. -/
def BlockSeq.append : BlockSeq → BlockSeq → BlockSeq
  | .nil, ys => ys
  | .cons b tl, ys => .cons b (tl.append ys)

/-- `blocks.length === 0` test on a block array. -/
def BlockSeq.isNil : BlockSeq → Bool
  | .nil => true
  | .cons _ _ => false

/-- `escapeAttribute` from `src/blocksToHtml.js`: HTML-attribute-escapes
`&`, `"`, the single quote, `<`, `>`. The source chains five global
single-character `replace` calls (`&` first); since no replacement text
contains a character replaced by a later pass, the chain equals this single
character-wise expansion. -/
def escapeAttribute (value : String) : String :=
  expandChars (fun c =>
    if c = '&' then "&amp;"
    else if c = '"' then "&quot;"
    else if c = squoteChar then "&#x27;"
    else if c = '<' then "&lt;"
    else if c = '>' then "&gt;"
    else String.singleton c) value

/-- `escapeAttributeName` from `src/blocksToHtml.js`: keeps only
`[a-zA-Z0-9_-]` characters of an attribute name. -/
def escapeAttributeName (name : String) : String :=
  String.mk (name.toList.filter (fun c => c.isAlphanum || c = '-' || c = '_'))

/-- `isVoidElement` from `src/blocksToHtml.js`. -/
def voidElements : List String :=
  ["img", "br", "hr", "input", "meta", "link", "area", "base",
   "col", "embed", "source", "track", "wbr"]

/-- `isVoidElement(tagName)` from `src/blocksToHtml.js`. -/
def isVoidElement (tagName : String) : Bool :=
  voidElements.contains (jsToLower tagName)

/-- The attribute-emission loop of `blockToHTML` (`src/blocksToHtml.js` lines
57–61): append ` name="value"` for every entry whose name is truthy and whose
value is neither `undefined` nor the empty string. -/
def buildAttrsGo : List (String × String) → String → String
  | [], acc => acc
  | (name, value) :: tl, acc =>
    if name ≠ "" ∧ value ≠ "" then
      buildAttrsGo tl (acc ++ " " ++ escapeAttributeName name ++ "=\"" ++ escapeAttribute value ++ "\"")
    else
      buildAttrsGo tl acc

/-- The attributes string of `blockToHTML` (`src/blocksToHtml.js` lines 49–61):
`class="<className>"` first when `className` is truthy, then the `globalAttrs`
entries in mapping order. -/
def buildAttributesString (className : String) (globalAttrs : List (String × String)) : String :=
  buildAttrsGo globalAttrs
    (if className ≠ "" then " class=\"" ++ escapeAttribute className ++ "\"" else "")

mutual
/-- Body of `blockToHTML` (`src/blocksToHtml.js`) for an actual block object;
the guard for non-block array slots lives in the `blockToHTML` wrapper below. -/
def blockToHTMLMain : Block → Bool → Nat → String
  | .mk _ name _ attributes innerBlocks, pretty, indent =>
    if name = "universal/element" then
      let tagName := attributes.tagName.getD "div"
      let contentType := attributes.contentType.getD "text"
      let content := attributes.content.getD ""
      let selfClosing := attributes.selfClosing.getD false
      let globalAttrs := attributes.globalAttrs.getD []
      let className := attributes.className.getD ""
      let attributesString := buildAttributesString className globalAttrs
      let innerContent :=
        if contentType = "text" ∨ contentType = "html" then content
        else if contentType = "blocks" then
          if innerBlocks.isNil then ""
          else
            let childHtml := joinSep (if pretty then "\n" else "")
              (seqToHTMLList innerBlocks pretty (indent + 1))
            if pretty ∧ childHtml ≠ "" then
              let indentStr := repeatStr "  " (indent + 1)
              "\n" ++ indentStr ++ joinSep ("\n" ++ indentStr) (splitOnChar '\n' childHtml) ++
                "\n" ++ repeatStr "  " indent
            else childHtml
        else ""
      let config := getTagConfig tagName
      let shouldBeSelfClosing :=
        match config with
        | some cf => cf.selfClosing
        | none => selfClosing || isVoidElement tagName
      let indentStr := if pretty then repeatStr "  " indent else ""
      if shouldBeSelfClosing then
        indentStr ++ "<" ++ tagName ++ attributesString ++ " />"
      else
        indentStr ++ "<" ++ tagName ++ attributesString ++ ">" ++ innerContent ++ "</" ++ tagName ++ ">"
    else ""
termination_by structural b => b

/-- `blocks.map(block => blockToHTML(block, options))` over a block array. -/
def seqToHTMLList : BlockSeq → Bool → Nat → List String
  | .nil, _, _ => []
  | .cons (some b) tl, pretty, indent =>
    blockToHTMLMain b pretty indent :: seqToHTMLList tl pretty indent
  | .cons none tl, pretty, indent => "" :: seqToHTMLList tl pretty indent
termination_by structural s => s
end

/-- `blockToHTML` from `src/blocksToHtml.js`: a falsy array slot renders as the
empty string, a block object via `blockToHTMLMain`. -/
def blockToHTML : Option Block → Bool → Nat → String
  | none, _, _ => ""
  | some b, pretty, indent => blockToHTMLMain b pretty indent

/-- Body of `parseBlocksToHTML` for an actual array argument:
map `blockToHTML` and join with `'\n'` when pretty, `''` otherwise. -/
def parseBlocksToHTMLCore (blocks : BlockSeq) (pretty : Bool) (indent : Nat) : String :=
  joinSep (if pretty then "\n" else "") (seqToHTMLList blocks pretty indent)

/-- `parseBlocksToHTML` from `src/blocksToHtml.js`. `none` models a falsy or
non-array `blocks` argument, which returns the empty string. -/
def parseBlocksToHTML (blocks : Option BlockSeq) (pretty : Bool := false) (indent : Nat := 0) : String :=
  match blocks with
  | none => ""
  | some s => parseBlocksToHTMLCore s pretty indent

/-- `JSON.stringify` escaping of a string value (backslash, quote and the
common control characters; the sources only ever hold plain text). The chained
global replaces equal this character-wise expansion. -/
def jsonEscapeString (s : String) : String :=
  expandChars (fun c =>
    if c = '\\' then "\\\\"
    else if c = '"' then "\\\""
    else if c = '\n' then "\\n"
    else if c = '\r' then "\\r"
    else if c = '\t' then "\\t"
    else String.singleton c) s

/-- A JSON string literal. -/
def jsonStr (s : String) : String := "\"" ++ jsonEscapeString s ++ "\""

/-- A JSON boolean literal. -/
def jsonBool (b : Bool) : String := if b then "true" else "false"

/-- JSON object for an attribute map (`globalAttrs`). -/
def jsonOfPairs (ps : List (String × String)) : String :=
  "\x7b" ++ joinSep "," (ps.map (fun p => jsonStr p.1 ++ ":" ++ jsonStr p.2)) ++ "\x7d"

/-- JSON object for a `uiState` value (present keys only, insertion order). -/
def uiStateJson (u : UiState) : String :=
  "\x7b" ++ joinSep ","
    (([] : List String) ++
      (match u.tagCategory with | some s => ["\"tagCategory\":" ++ jsonStr s] | none => []) ++
      (match u.selectedTagName with | some s => ["\"selectedTagName\":" ++ jsonStr s] | none => []) ++
      (match u.selectedContentType with | some s => ["\"selectedContentType\":" ++ jsonStr s] | none => [])) ++
  "\x7d"

/-- `JSON.stringify(blockAttrs)` in `blockToWPMarkup` (`src/blocksToWpMarkup.js`):
the spread copy of `attributes` with `isDynamic` defaulted to `false` when falsy
and `elementType` defaulted to `"text"` when falsy. Present keys are emitted in
the insertion order used by the forward transcoder. -/
def attrsJson (a : BlockAttrs) : String :=
  let isDynamic := a.isDynamic.getD false
  let elementType := match a.elementType with
    | some s => if s = "" then "text" else s
    | none => "text"
  "\x7b" ++ joinSep ","
    ((match a.blockName with | some s => ["\"blockName\":" ++ jsonStr s] | none => []) ++
     (match a.tagName with | some s => ["\"tagName\":" ++ jsonStr s] | none => []) ++
     (match a.category with | some s => ["\"category\":" ++ jsonStr s] | none => []) ++
     (match a.contentType with | some s => ["\"contentType\":" ++ jsonStr s] | none => []) ++
     (match a.selfClosing with | some b => ["\"selfClosing\":" ++ jsonBool b] | none => []) ++
     (match a.globalAttrs with | some ps => ["\"globalAttrs\":" ++ jsonOfPairs ps] | none => []) ++
     (match a.uiState with | some u => ["\"uiState\":" ++ uiStateJson u] | none => []) ++
     (match a.className with | some s => ["\"className\":" ++ jsonStr s] | none => []) ++
     (match a.content with | some s => ["\"content\":" ++ jsonStr s] | none => []) ++
     ["\"isDynamic\":" ++ jsonBool isDynamic] ++
     ["\"elementType\":" ++ jsonStr elementType]) ++
  "\x7d"

/-- The self-closing condition of `blockToWPMarkup` (`src/blocksToWpMarkup.js`
lines 322–325): no inner blocks and an empty content type, or a `text`/`html`
content type with falsy `content`. -/
def wpIsSelfClosing (attributes : BlockAttrs) (innerBlocks : BlockSeq) : Bool :=
  innerBlocks.isNil &&
    (attributes.contentType == some "empty" ||
     (attributes.contentType == some "text" && (attributes.content.getD "" == "")) ||
     (attributes.contentType == some "html" && (attributes.content.getD "" == "")))

mutual
/-- Body of `blockToWPMarkup` (`src/blocksToWpMarkup.js`) for an actual block
object; the guard for non-block array slots lives in the wrapper below. -/
def blockToWPMarkupMain : Block → Nat → String
  | .mk _ name _ attributes innerBlocks, indent =>
    if name = "universal/element" then
      let indentStr := repeatStr "    " indent
      let json := attrsJson attributes
      if wpIsSelfClosing attributes innerBlocks then
        indentStr ++ "<!-- wp:universal/element " ++ json ++ " /-->"
      else
        let openComment := indentStr ++ "<!-- wp:universal/element " ++ json ++ " -->"
        if innerBlocks.isNil then
          openComment ++ "<!-- /wp:universal/element -->"
        else
          openComment ++ "\n" ++ joinSep "\n" (seqToWPList innerBlocks (indent + 1)) ++
            "\n" ++ indentStr ++ "<!-- /wp:universal/element -->"
    else ""
termination_by structural b => b

/-- `blocks.map(block => blockToWPMarkup(block, options))` over a block array. -/
def seqToWPList : BlockSeq → Nat → List String
  | .nil, _ => []
  | .cons (some b) tl, indent => blockToWPMarkupMain b indent :: seqToWPList tl indent
  | .cons none tl, indent => "" :: seqToWPList tl indent
termination_by structural s => s
end

/-- `blockToWPMarkup` from `src/blocksToWpMarkup.js`: a falsy array slot
renders as the empty string, a block object via `blockToWPMarkupMain`. -/
def blockToWPMarkup : Option Block → Nat → String
  | none, _ => ""
  | some b, indent => blockToWPMarkupMain b indent

/-- `parseBlocksToWPMarkup` from `src/blocksToWpMarkup.js`. `none` models a
falsy or non-array `blocks` argument, which returns the empty string. -/
def parseBlocksToWPMarkup (blocks : Option BlockSeq) (indent : Nat := 0) : String :=
  match blocks with
  | none => ""
  | some s => joinSep "\n" (seqToWPList s indent)

/-!
DOM model for the forward transcoder. `src/htmlToBlocks.js` walks a DOM built
by a lenient HTML parser (an external capability, abstracted per the design
notes as `parse(text) -> ordered sequence of (tag, attributes, children | text)`).
A node is a text node or an element with an ordered attribute list (names as
the DOM reports them, i.e. lowercased for HTML content) and child nodes.
-/

mutual
/-- A DOM node: `nodeType 3` text or `nodeType 1` element. -/
inductive DomNode : Type where
  | text (s : String)
  | elem (tag : String) (attrs : List (String × String)) (children : DomForest)

/-- An ordered sequence of DOM nodes (`childNodes`). -/
inductive DomForest : Type where
  | nil
  | cons (hd : DomNode) (tl : DomForest)
end

/-- `hasChildElements` from `src/htmlToBlocks.js`: some direct child has
`nodeType === 1`. -/
def hasChildElements : DomForest → Bool
  | .nil => false
  | .cons (.elem _ _ _) _ => true
  | .cons (.text _) tl => hasChildElements tl

/-- `hasTextContent` from `src/htmlToBlocks.js`: some direct child is a text
node with non-whitespace content. -/
def hasTextContent : DomForest → Bool
  | .nil => false
  | .cons (.text s) tl => (jsTrim s ≠ "") || hasTextContent tl
  | .cons (.elem _ _ _) tl => hasTextContent tl

mutual
/-- DOM `textContent` of a node: concatenation of all descendant text. -/
def domNodeText : DomNode → String
  | .text s => s
  | .elem _ _ children => domForestText children
termination_by structural n => n

/-- DOM `textContent` concatenated over a node sequence. -/
def domForestText : DomForest → String
  | .nil => ""
  | .cons hd tl => domNodeText hd ++ domForestText tl
termination_by structural f => f
end

/-- HTML text-node escaping used by the DOM serializer (`&`, `<`, `>`). -/
def escapeSerializedText (s : String) : String :=
  expandChars (fun c =>
    if c = '&' then "&amp;"
    else if c = '<' then "&lt;"
    else if c = '>' then "&gt;"
    else String.singleton c) s

/-- HTML attribute-value escaping used by the DOM serializer (`&`, `"`). -/
def escapeSerializedAttr (s : String) : String :=
  expandChars (fun c =>
    if c = '&' then "&amp;"
    else if c = '"' then "&quot;"
    else String.singleton c) s

mutual
/-- The DOM `innerHTML` serializer (external capability of the HTML library),
modelled with the standard HTML fragment-serialization rules: text escaped,
attributes double-quoted and escaped, void elements without a closing tag. -/
def domNodeHTML : DomNode → String
  | .text s => escapeSerializedText s
  | .elem tag attrs children =>
    let attrsStr := strConcat (attrs.map (fun p => " " ++ p.1 ++ "=\"" ++ escapeSerializedAttr p.2 ++ "\""))
    if voidElements.contains (jsToLower tag) then
      "<" ++ tag ++ attrsStr ++ ">"
    else
      "<" ++ tag ++ attrsStr ++ ">" ++ domForestHTML children ++ "</" ++ tag ++ ">"
termination_by structural n => n

/-- `innerHTML` of a node sequence. -/
def domForestHTML : DomForest → String
  | .nil => ""
  | .cons hd tl => domNodeHTML hd ++ domForestHTML tl
termination_by structural f => f
end

/-- The hex digit produced by `v.toString(16)` for `v < 16`. -/
def hexChar (n : Nat) : Char :=
  if n < 10 then Char.ofNat (48 + n) else Char.ofNat (87 + n)

/-- The template string of `generateClientId` (`src/htmlToBlocks.js`). -/
def clientIdTemplate : List Char := "xxxxxxxx-xxxx-4xxx-yxxx-xxxxxxxxxxxx".toList

/-- Character loop of `generateClientId`: each `x`/`y` consumes one
`Math.random() * 16 | 0` draw from the oracle `g` at the running counter. -/
def clientIdGo (g : Nat → Nat) : List Char → Nat → List Char × Nat
  | [], ctr => ([], ctr)
  | c :: tl, ctr =>
    if c = 'x' then
      let r := g ctr % 16
      let (rest, ctr') := clientIdGo g tl (ctr + 1)
      (hexChar r :: rest, ctr')
    else if c = 'y' then
      let r := g ctr % 16
      let v := (r &&& 3) ||| 8
      let (rest, ctr') := clientIdGo g tl (ctr + 1)
      (hexChar v :: rest, ctr')
    else
      let (rest, ctr') := clientIdGo g tl ctr
      (c :: rest, ctr')

/-- `generateClientId` from `src/htmlToBlocks.js`, with `Math.random` supplied
by the oracle stream `g` and a call counter. -/
def generateClientId (g : Nat → Nat) (ctr : Nat) : String × Nat :=
  let (cs, ctr') := clientIdGo g clientIdTemplate ctr
  (String.mk cs, ctr')

/-- JS object-key assignment on an association list: an existing key is updated
in place (keeping its position), a new key is appended. -/
def setKey (l : List (String × String)) (k : String) (v : String) : List (String × String) :=
  if l.any (fun p => p.1 = k) then
    l.map (fun p => if p.1 = k then (k, v) else p)
  else
    l ++ [(k, v)]

/-- The attribute-extraction loop of `nodeToBlock` (`src/htmlToBlocks.js` lines
118–126): `class` becomes `className` (last occurrence wins), `style` is
renamed to `data-style`, everything else passes through into `globalAttrs`. -/
def extractAttrsGo : List (String × String) → List (String × String) → String →
    List (String × String) × String
  | [], ga, cn => (ga, cn)
  | (name, value) :: tl, ga, cn =>
    if name = "class" then extractAttrsGo tl ga value
    else if name = "style" then extractAttrsGo tl (setKey ga "data-style" value) cn
    else extractAttrsGo tl (setKey ga name value) cn

/-- Attribute extraction of `nodeToBlock`: returns `(globalAttrs, className)`. -/
def extractAttrs (attrs : List (String × String)) : List (String × String) × String :=
  extractAttrsGo attrs [] ""

/-- The void-element list local to `nodeToBlock` (`src/htmlToBlocks.js` line 134);
textually identical to the one in `src/blocksToHtml.js`. -/
def fwdVoidElements : List String :=
  ["img", "br", "hr", "input", "meta", "link", "area", "base", "col", "embed",
   "source", "track", "wbr"]

/-- The container-element list of `nodeToBlock` (`src/htmlToBlocks.js` line 151). -/
def containerElements : List String :=
  ["div", "section", "article", "header", "footer", "main", "nav", "aside",
   "ul", "ol", "li", "form", "fieldset", "blockquote", "figure", "button"]

/-- `tagName.charAt(0).toUpperCase() + tagName.slice(1)`. -/
def capitalizeFirst (s : String) : String :=
  match s.toList with
  | [] => ""
  | c :: rest => String.mk (c.toUpper :: rest)

/-- The content-type detection of `nodeToBlock` (`src/htmlToBlocks.js` lines
128–171), in the code's branch order: dynamic-tag policy, void element, `svg`,
then universal detection. `innerPair` is the recursive conversion of the child
nodes, used (and its counter consumed) only in the container branch. Returns
`(contentType, content, innerBlocks, ctr)`. -/
def elemClassify (innerPair : BlockSeq × Nat) (config : Option TagConfig) (tagName : String)
    (children : DomForest) (ctr : Nat) : String × String × BlockSeq × Nat :=
  if config.map (·.selfClosing) == some true then
    (match config with
     | some cf => if cf.contentType = "" then "empty" else cf.contentType
     | none => "empty", "", BlockSeq.nil, ctr)
  else if fwdVoidElements.contains tagName then ("empty", "", BlockSeq.nil, ctr)
  else if tagName = "svg" then ("html", domForestHTML children, BlockSeq.nil, ctr)
  else if hasChildElements children && containerElements.contains tagName then
    ("blocks", "", innerPair.1, innerPair.2)
  else if hasChildElements children then ("html", domForestHTML children, BlockSeq.nil, ctr)
  else if hasTextContent children then ("text", domForestText children, BlockSeq.nil, ctr)
  else ("empty", "", BlockSeq.nil, ctr)

mutual
/-- `nodeToBlock` from `src/htmlToBlocks.js`: convert one DOM node to a block
(`none` for whitespace-only text nodes), threading the `Math.random` counter. -/
def nodeToBlock (g : Nat → Nat) : DomNode → Nat → Option Block × Nat
  | .text s, ctr =>
    let text := jsTrim s
    if text = "" then (none, ctr)
    else
      (some (.mk (generateClientId g ctr).1 "universal/element" true
        { blockName := some "P", tagName := some "p", category := some "custom",
          contentType := some "text", content := some text, selfClosing := some false,
          uiState := some ⟨some "custom", some "p", some "text"⟩ } .nil),
       (generateClientId g ctr).2)
  | .elem tag attrs children, ctr =>
    let tagName := jsToLower tag
    let config := getTagConfig tagName
    let globalAttrs := (extractAttrs attrs).1
    let className := (extractAttrs attrs).2
    let ec := elemClassify (nodesToBlocks g children ctr) config tagName children ctr
    let contentType := ec.1
    let content := ec.2.1
    let innerBlocks := ec.2.2.1
    let ctr₁ := ec.2.2.2
    let finalSelfClosing :=
      match config with
      | some cf => cf.selfClosing
      | none => fwdVoidElements.contains tagName
    (some (.mk (generateClientId g ctr₁).1 "universal/element" true
      { blockName := some (capitalizeFirst tagName), tagName := some tagName,
        category := some "custom", contentType := some contentType,
        selfClosing := some finalSelfClosing, globalAttrs := some globalAttrs,
        uiState := some ⟨some "custom", some tagName, some contentType⟩,
        className := if className ≠ "" then some className else none,
        content := if contentType = "text" ∨ contentType = "html" then some content else none }
      innerBlocks), (generateClientId g ctr₁).2)
termination_by structural n => n

/-- The child-node loop of `parseHTMLToBlocks`/`nodeToBlock`: convert each node,
keeping only the non-`null` results, in document order. -/
def nodesToBlocks (g : Nat → Nat) : DomForest → Nat → BlockSeq × Nat
  | .nil, ctr => (.nil, ctr)
  | .cons hd tl, ctr =>
    let ob := (nodeToBlock g hd ctr).1
    let ctr₁ := (nodeToBlock g hd ctr).2
    let rest := (nodesToBlocks g tl ctr₁).1
    let ctr₂ := (nodesToBlocks g tl ctr₁).2
    match ob with
    | some b => (.cons (some b) rest, ctr₂)
    | none => (rest, ctr₂)
termination_by structural f => f
end

/-- `\w` of the preprocessing regex in `parseHTMLToBlocks`: `[A-Za-z0-9_]`. -/
def isWordChar (c : Char) : Bool := c.isAlphanum || c = '_'

/-- The lazy scan of `[^>]*?\/>` in the preprocessing regex: starting after the
tag name, consume characters other than `>` until a literal `/>`; fail on a
bare `>` or end of input. Returns the consumed span and the rest. -/
def scanSelfCloseAttrs : List Char → Option (List Char × List Char)
  | '/' :: '>' :: rest => some ([], rest)
  | '>' :: _ => none
  | [] => none
  | c :: rest =>
    match scanSelfCloseAttrs rest with
    | some (attrs, rest') => some (c :: attrs, rest')
    | none => none

/-- One global-replace pass of the regex `<(\w+)([^>]*?)\/>` in
`parseHTMLToBlocks` (`src/htmlToBlocks.js` lines 53–59): a self-closing tag
whose (lowercased) name has a `selfClosing: true` policy is rewritten to
`<tag attrs></tag>`; any other match is kept unchanged. `fuel` bounds the scan
(one unit per consumed character suffices). -/
def preprocessGo (fuel : Nat) : List Char → List Char
  | [] => []
  | cs@('<' :: rest) =>
    match fuel with
    | 0 => cs
    | fuel' + 1 =>
      let w := rest.takeWhile isWordChar
      if w.isEmpty then '<' :: preprocessGo fuel' rest
      else
        match scanSelfCloseAttrs (rest.drop w.length) with
        | some (attrsSpan, rest') =>
          let tagName := String.mk w
          if (getTagConfig (jsToLower tagName)).map (·.selfClosing) == some true then
            '<' :: (w ++ attrsSpan ++ ('>' :: '<' :: '/' :: (w ++ ['>'] ++ preprocessGo fuel' rest')))
          else
            '<' :: (w ++ attrsSpan ++ ('/' :: '>' :: preprocessGo fuel' rest'))
        | none => '<' :: preprocessGo fuel' rest
  | c :: rest =>
    match fuel with
    | 0 => c :: rest
    | fuel' + 1 => c :: preprocessGo fuel' rest

/-- The self-closing-tag preprocessing step of `parseHTMLToBlocks`
(`html.replace(/<(\w+)([^>]*?)\/>/g, ...)`). -/
def preprocessSelfClosing (html : String) : String :=
  String.mk (preprocessGo html.length html.toList)

/-- HTML whitespace. -/
def isSpaceChar (c : Char) : Bool := c = ' ' || c = '\n' || c = '\t' || c = '\r'

/-- Modelled from the spec: entity decoding done by the lenient HTML parser
(external capability, §9 of the design notes) for the five entities the
system's own escaper produces. -/
def decodeEntities (s : String) : String :=
  replaceAll (replaceAll (replaceAll (replaceAll (replaceAll
    s "&lt;" "<") "&gt;" ">") "&quot;" "\"") "&#x27;" squote) "&amp;" "&"

/-- Modelled from the spec: the attribute scanner of the lenient HTML parser
(external capability): repeated `name`, `name="value"` or `name=value` groups
up to `>` or `/>`. Returns `(attributes, rest after the closing bracket)`. -/
def parseTagAttrs (fuel : Nat) (cs : List Char) : List (String × String) × List Char :=
  match fuel with
  | 0 => ([], cs)
  | fuel' + 1 =>
    let cs := cs.dropWhile isSpaceChar
    match cs with
    | [] => ([], [])
    | '>' :: rest => ([], rest)
    | '/' :: '>' :: rest => ([], rest)
    | _ =>
      let name := cs.takeWhile (fun c => !(isSpaceChar c) && c ≠ '=' && c ≠ '>' && c ≠ '/')
      if name.isEmpty then
        -- stray character (e.g. a lone '/'): skip it
        parseTagAttrs fuel' (cs.drop 1)
      else
        let cs₁ := cs.drop name.length
        let key := jsToLower (String.mk name)
        match cs₁ with
        | '=' :: '"' :: cs₂ =>
          let value := cs₂.takeWhile (· ≠ '"')
          let (attrs, rest) := parseTagAttrs fuel' (cs₂.drop (value.length + 1))
          ((key, decodeEntities (String.mk value)) :: attrs, rest)
        | '=' :: cs₂ =>
          let value := cs₂.takeWhile (fun c => !(isSpaceChar c) && c ≠ '>')
          let (attrs, rest) := parseTagAttrs fuel' (cs₂.drop value.length)
          ((key, decodeEntities (String.mk value)) :: attrs, rest)
        | _ =>
          let (attrs, rest) := parseTagAttrs fuel' cs₁
          ((key, "") :: attrs, rest)

/-- Does `cs` start with the close tag `</name>` (name compared lowercased)?
If so return the rest after it. -/
def matchCloseTag (name : String) (cs : List Char) : Option (List Char) :=
  match cs with
  | '<' :: '/' :: rest =>
    let w := rest.takeWhile isWordChar
    if jsToLower (String.mk w) = name then
      match (rest.drop w.length).dropWhile isSpaceChar with
      | '>' :: rest' => some rest'
      | _ => none
    else none
  | _ => none

/-- Modelled from the spec: the node scanner of the lenient HTML parser
(external capability, "parse(text) -> ordered sequence of
(tag, attributes, children | text)"). Stops before a close tag so the caller
can match it; an unknown self-closing tag is treated as an open tag (the
behaviour the preprocessing step exists to compensate for); void elements never
take children. -/
def parseNodesGo (fuel : Nat) (cs : List Char) : DomForest × List Char :=
  match fuel with
  | 0 => (.nil, cs)
  | fuel' + 1 =>
    match cs with
    | [] => (.nil, [])
    | '<' :: '/' :: rest => (.nil, '<' :: '/' :: rest)
    | '<' :: c :: rest =>
      if c.isAlpha then
        let w := c :: rest.takeWhile isWordChar
        let name := jsToLower (String.mk w)
        let afterName := rest.drop (w.length - 1)
        let (attrs, rest₁) := parseTagAttrs fuel' afterName
        if voidElements.contains name then
          let (siblings, rest₂) := parseNodesGo fuel' rest₁
          (.cons (.elem name attrs .nil) siblings, rest₂)
        else
          let (children, rest₂) := parseNodesGo fuel' rest₁
          let rest₃ := match matchCloseTag name rest₂ with
            | some r => r
            | none => rest₂
          let (siblings, rest₄) := parseNodesGo fuel' rest₃
          (.cons (.elem name attrs children) siblings, rest₄)
      else
        let run := c :: rest.takeWhile (· ≠ '<')
        let (siblings, rest') := parseNodesGo fuel' (rest.drop (run.length - 1))
        (.cons (.text (decodeEntities (String.mk ('<' :: run)))) siblings, rest')
    | c :: rest =>
      let run := c :: rest.takeWhile (· ≠ '<')
      let (siblings, rest') := parseNodesGo fuel' (rest.drop (run.length - 1))
      (.cons (.text (decodeEntities (String.mk run))) siblings, rest')

/-- Append two DOM node sequences. -/
def DomForest.append : DomForest → DomForest → DomForest
  | .nil, ys => ys
  | .cons hd tl, ys => .cons hd (tl.append ys)

/-- Modelled from the spec: the top-level driver of the lenient HTML parser —
parse runs of nodes, skipping stray close tags between runs (error recovery). -/
def parseFragmentGo (fuel : Nat) (cs : List Char) : DomForest :=
  match fuel with
  | 0 => .nil
  | fuel' + 1 =>
    match cs with
    | [] => .nil
    | _ =>
      let (nodes, rest) := parseNodesGo fuel cs
      match rest with
      | '<' :: '/' :: rest' =>
        -- stray close tag with no matching open tag: drop it and continue
        let afterGt := (rest'.dropWhile (· ≠ '>')).drop 1
        nodes.append (parseFragmentGo fuel' afterGt)
      | _ => nodes

/-- Modelled from the spec: `parse(text)` of the external lenient HTML parser —
the DOM forest the library produces for a document fragment. -/
def parseFragment (s : String) : DomForest :=
  parseFragmentGo (s.length + 1) s.toList

/-- `parseHTMLToBlocks` from `src/htmlToBlocks.js`: `none` models a `null` or
non-string argument, the empty string is also rejected by the `!html` guard;
otherwise the input is preprocessed, parsed (external parser, modelled by
`parseFragment`) and each top-level DOM node converted. -/
def parseHTMLToBlocks (g : Nat → Nat) (ctr : Nat) (html : Option String) : BlockSeq :=
  match html with
  | none => .nil
  | some s =>
    if s = "" then .nil
    else (nodesToBlocks g (parseFragment (preprocessSelfClosing s)) ctr).1

/-!
Claim-side definitions: these transcribe the words of the specification (not
the source) and are compared with the source embedding in the theorems below.
-/

/-- Spec-side canonical attribute serialization for an element: the `class`
attribute (if any) first, then every other attribute in document order, each
double-quoted and attribute-escaped. A document rendered with `renderAttrs`
has exactly the attribute set of the original element. -/
def renderAttrs (attrs : List (String × String)) : String :=
  (match attrs.find? (fun p => p.1 = "class") with
   | some p => " class=\"" ++ escapeAttribute p.2 ++ "\""
   | none => "") ++
  strConcat ((attrs.filter (fun p => p.1 ≠ "class")).map
    (fun p => " " ++ p.1 ++ "=\"" ++ escapeAttribute p.2 ++ "\""))

mutual
/-- Spec-side canonical serialization of a DOM node: same tag names, same
attribute sets, same nesting as the node itself. -/
def renderNode : DomNode → String
  | .text s => s
  | .elem tag attrs children =>
    "<" ++ tag ++ renderAttrs attrs ++ ">" ++ renderForest children ++ "</" ++ tag ++ ">"
termination_by structural n => n

/-- Spec-side canonical serialization of a document (node sequence). -/
def renderForest : DomForest → String
  | .nil => ""
  | .cons hd tl => renderNode hd ++ renderForest tl
termination_by structural f => f
end

/-- An attribute is *plain* when its name is a non-empty run of `[A-Za-z0-9_-]`
characters other than `style` and its value is non-empty (so neither the
forward `style` remap nor the reverse empty-value skip applies). -/
def plainAttr (p : String × String) : Bool :=
  p.1 ≠ "" && p.2 ≠ "" && p.1 ≠ "style" &&
    p.1.toList.all (fun c => c.isAlphanum || c = '-' || c = '_')

/-- No attribute name occurs twice (guaranteed by the DOM). -/
def noDupKeys : List (String × String) → Bool
  | [] => true
  | (n, _) :: tl => !(tl.any (fun p => p.1 = n)) && noDupKeys tl

mutual
/-- An *element-only document built from container tags with plain attributes*
(the round-trip claim's input class): every node is an element whose tag is in
the container set and whose attributes are plain and duplicate-free. -/
def isSimpleNode : DomNode → Bool
  | .text _ => false
  | .elem tag attrs children =>
    containerElements.contains tag && noDupKeys attrs && attrs.all plainAttr &&
      isSimpleForest children
termination_by structural n => n

/-- `isSimpleNode` over a node sequence. -/
def isSimpleForest : DomForest → Bool
  | .nil => true
  | .cons hd tl => isSimpleNode hd && isSimpleForest tl
termination_by structural f => f
end

/-- The attribute emission as the spec sentence states it (claim C5): every
entry of the map emitted, names filtered, values escaped. -/
def claimAttrString (className : String) (globalAttrs : List (String × String)) : String :=
  (if className ≠ "" then " class=\"" ++ escapeAttribute className ++ "\"" else "") ++
  strConcat (globalAttrs.map
    (fun p => " " ++ escapeAttributeName p.1 ++ "=\"" ++ escapeAttribute p.2 ++ "\""))

/-- The attribute emission as amended: entries with an empty name or an empty
value are skipped, the rest is as the spec sentence states it. -/
def specAttrString (className : String) (globalAttrs : List (String × String)) : String :=
  (if className ≠ "" then " class=\"" ++ escapeAttribute className ++ "\"" else "") ++
  strConcat (globalAttrs.map
    (fun p => if p.1 ≠ "" ∧ p.2 ≠ "" then
        " " ++ escapeAttributeName p.1 ++ "=\"" ++ escapeAttribute p.2 ++ "\""
      else ""))

mutual
/-- Erase every `clientId` in a block tree (the only run-dependent field). -/
def stripBlock : Block → Block
  | .mk _ name isValid attributes innerBlocks =>
    .mk "" name isValid attributes (stripSeq innerBlocks)
termination_by structural b => b

/-- Erase every `clientId` in a block array. -/
def stripSeq : BlockSeq → BlockSeq
  | .nil => .nil
  | .cons (some b) tl => .cons (some (stripBlock b)) (stripSeq tl)
  | .cons none tl => .cons none (stripSeq tl)
termination_by structural s => s
end

mutual
/-- The payload-exclusivity invariant of the data model, checked on a block and
all of its descendants: non-empty `content` only with contentType `text`/`html`,
non-empty `innerBlocks` only with contentType `blocks`, and never both. -/
def invBlock : Block → Bool
  | .mk _ _ _ attributes innerBlocks =>
    (!decide (attributes.content.getD "" ≠ "") ||
      (attributes.contentType == some "text" || attributes.contentType == some "html")) &&
    (!(!innerBlocks.isNil) || attributes.contentType == some "blocks") &&
    !(decide (attributes.content.getD "" ≠ "") && !innerBlocks.isNil) &&
    invSeq innerBlocks
termination_by structural b => b

/-- `invBlock` over every present entry of a block array. -/
def invSeq : BlockSeq → Bool
  | .nil => true
  | .cons (some b) tl => invBlock b && invSeq tl
  | .cons none tl => invSeq tl
termination_by structural s => s
end

/-- `contentType` attribute of an optional block. -/
def obContentType (ob : Option Block) : Option String :=
  ob.bind (fun b => b.attributes.contentType)

/-- `selfClosing` attribute of an optional block. -/
def obSelfClosing (ob : Option Block) : Option Bool :=
  ob.bind (fun b => b.attributes.selfClosing)

/-- `content` attribute of an optional block. -/
def obContent (ob : Option Block) : Option String :=
  ob.bind (fun b => b.attributes.content)

/-- First entry of a block array. -/
def seqHead : BlockSeq → Option Block
  | .nil => none
  | .cons ob _ => ob

/-- `clientId` of an optional block. -/
def obClientId (ob : Option Block) : Option String :=
  ob.map Block.clientId

/-!
Helper lemmas.
-/

theorem strConcat_nil : strConcat [] = "" := rfl

theorem strConcat_cons (a : String) (l : List String) :
    strConcat (a :: l) = a ++ strConcat l := rfl

theorem joinSep_empty_cons (a : String) (l : List String) :
    joinSep "" (a :: l) = a ++ joinSep "" l := by
  cases l with
  | nil => simp [joinSep, String.append_empty]
  | cons b tl => simp [joinSep, String.append_assoc, String.empty_append]

theorem joinSep_empty_eq_strConcat (l : List String) :
    joinSep "" l = strConcat l := by
  induction l with
  | nil => rfl
  | cons a tl ih => rw [joinSep_empty_cons, strConcat_cons, ih]

theorem joinSep_empty_append (l₁ l₂ : List String) :
    joinSep "" (l₁ ++ l₂) = joinSep "" l₁ ++ joinSep "" l₂ := by
  induction l₁ with
  | nil => simp [joinSep, String.empty_append]
  | cons a tl ih =>
    rw [List.cons_append, joinSep_empty_cons, ih, joinSep_empty_cons, String.append_assoc]

theorem seqToHTMLList_append : ∀ (xs ys : BlockSeq) (pretty : Bool) (indent : Nat),
    seqToHTMLList (xs.append ys) pretty indent =
      seqToHTMLList xs pretty indent ++ seqToHTMLList ys pretty indent
  | .nil, ys, p, i => by simp [BlockSeq.append, seqToHTMLList]
  | .cons ob tl, ys, p, i => by
    cases ob <;> simp [BlockSeq.append, seqToHTMLList, seqToHTMLList_append tl ys p i]

theorem seqToWPList_append : ∀ (xs ys : BlockSeq) (indent : Nat),
    seqToWPList (xs.append ys) indent = seqToWPList xs indent ++ seqToWPList ys indent
  | .nil, ys, i => by simp [BlockSeq.append, seqToWPList]
  | .cons ob tl, ys, i => by
    cases ob <;> simp [BlockSeq.append, seqToWPList, seqToWPList_append tl ys i]

theorem buildAttrsGo_eq : ∀ (l : List (String × String)) (acc : String),
    buildAttrsGo l acc = acc ++ strConcat (l.map
      (fun p => if p.1 ≠ "" ∧ p.2 ≠ "" then
          " " ++ escapeAttributeName p.1 ++ "=\"" ++ escapeAttribute p.2 ++ "\""
        else ""))
  | [], acc => by simp [buildAttrsGo, strConcat, String.append_empty]
  | (n, v) :: tl, acc => by
    by_cases h : n ≠ "" ∧ v ≠ ""
    · simp only [buildAttrsGo, if_pos h, List.map_cons, strConcat_cons,
        buildAttrsGo_eq tl, String.append_assoc]
    · simp only [buildAttrsGo, if_neg h, List.map_cons, strConcat_cons,
        buildAttrsGo_eq tl, String.empty_append]

/-- An array slot the reverse paths treat as foreign: `null`/`undefined` or a
block whose `name` is not `universal/element`. -/
def isForeignEntry : Option Block → Prop
  | none => True
  | some b => b.name ≠ "universal/element"

theorem blockToHTML_foreign (ob : Option Block) (h : isForeignEntry ob)
    (pretty : Bool) (indent : Nat) : blockToHTML ob pretty indent = "" := by
  match ob with
  | none => rfl
  | some (.mk id nm v a inner) =>
    have hnm : nm ≠ "universal/element" := h
    simp [blockToHTML, blockToHTMLMain, hnm]

theorem blockToWPMarkup_foreign (ob : Option Block) (h : isForeignEntry ob)
    (indent : Nat) : blockToWPMarkup ob indent = "" := by
  match ob with
  | none => rfl
  | some (.mk id nm v a inner) =>
    have hnm : nm ≠ "universal/element" := h
    simp [blockToWPMarkup, blockToWPMarkupMain, hnm]

theorem seqToHTMLList_cons (ob : Option Block) (tl : BlockSeq) (pretty : Bool) (indent : Nat) :
    seqToHTMLList (.cons ob tl) pretty indent =
      blockToHTML ob pretty indent :: seqToHTMLList tl pretty indent := by
  cases ob <;> rfl

theorem seqToWPList_cons (ob : Option Block) (tl : BlockSeq) (indent : Nat) :
    seqToWPList (.cons ob tl) indent = blockToWPMarkup ob indent :: seqToWPList tl indent := by
  cases ob <;> rfl

/-!
Claim C5 — reverse attribute emission.
-/

/-- C5 (counterexample): the reverse transcoder does not emit every entry of
the attributes map — an entry with an empty value (and one with an empty name)
is silently skipped, contrary to the claim, whose emission for this map
(`claimAttrString`) would be non-empty. At the block level the attributes
`[("", "x"), ("data-x", "")]` leave no trace in the serialized element. -/
theorem c5_every_entry_counterexample :
    buildAttributesString "" [("", "x"), ("data-x", "")] = "" ∧
    claimAttrString "" [("", "x"), ("data-x", "")] ≠ "" ∧
    blockToHTML (some (.mk "" "universal/element" true
      { tagName := some "div", globalAttrs := some [("", "x"), ("data-x", "")] } .nil))
      false 0 = "<div></div>" := by
  refine ⟨rfl, by decide, rfl⟩

/-- C5 (amended): the reverse transcoder emits `class="<className>"` first when
`className` is non-empty, then every entry of the attributes map whose name and
value are both non-empty, in mapping order, each value HTML-attribute-escaped
and each name filtered to `[A-Za-z0-9_-]` (a disallowed character is dropped
from the name while the attribute is still emitted with its value intact);
entries with an empty name or an empty value are skipped. -/
theorem c5_attr_emission (className : String) (globalAttrs : List (String × String)) :
    buildAttributesString className globalAttrs = specAttrString className globalAttrs := by
  rw [buildAttributesString, buildAttrsGo_eq, specAttrString]

/-!
Claim C6 — error handling of the core entry points.
-/

/-- C6 (counterexample): contrary to the claim, the core does not raise when
given a non-array where a block sequence is required — both reverse entry
points return the empty string for such an argument (the modelled `none`). -/
theorem c6_nonarray_counterexample :
    parseBlocksToHTML none false 0 = "" ∧ parseBlocksToWPMarkup none 0 = "" :=
  ⟨rfl, rfl⟩

/-- C6 (amended): a non-array where a block sequence is required yields an
empty string rather than an error, and null/non-string (and empty) input to
the forward transcoder yields an empty result rather than a failure; the
embedded core functions are total, so no malformed-but-parseable document can
make them raise. -/
theorem c6_invalid_argument_guards (pretty : Bool) (indent : Nat)
    (g : Nat → Nat) (ctr : Nat) :
    parseBlocksToHTML none pretty indent = "" ∧
    parseBlocksToWPMarkup none indent = "" ∧
    parseHTMLToBlocks g ctr none = .nil ∧
    parseHTMLToBlocks g ctr (some "") = .nil :=
  ⟨rfl, rfl, rfl, rfl⟩

/-!
Claim C10 — foreign array entries render as the empty string.
-/

/-- C10: a `null`/`undefined` array entry, or one whose `name` is not exactly
`universal/element`, renders as the empty string in both reverse paths without
affecting the rendering of the remaining entries; with compact joining the
output is exactly the concatenation of the outputs for the surrounding
entries. -/
theorem c10_foreign_entries (xs ys : BlockSeq) (bad : Option Block)
    (h : isForeignEntry bad) (pretty : Bool) (indent : Nat) :
    blockToHTML bad pretty indent = "" ∧
    blockToWPMarkup bad indent = "" ∧
    seqToHTMLList (xs.append (.cons bad ys)) pretty indent =
      seqToHTMLList xs pretty indent ++ [""] ++ seqToHTMLList ys pretty indent ∧
    seqToWPList (xs.append (.cons bad ys)) indent =
      seqToWPList xs indent ++ [""] ++ seqToWPList ys indent ∧
    parseBlocksToHTML (some (xs.append (.cons bad ys))) false indent =
      parseBlocksToHTML (some xs) false indent ++ parseBlocksToHTML (some ys) false indent := by
  have hh := blockToHTML_foreign bad h pretty indent
  have hw := blockToWPMarkup_foreign bad h indent
  have hhf := blockToHTML_foreign bad h false indent
  refine ⟨hh, hw, ?_, ?_, ?_⟩
  · rw [seqToHTMLList_append, seqToHTMLList_cons, hh]
    simp
  · rw [seqToWPList_append, seqToWPList_cons, hw]
    simp
  · show parseBlocksToHTMLCore _ _ _ = parseBlocksToHTMLCore _ _ _ ++ parseBlocksToHTMLCore _ _ _
    rw [parseBlocksToHTMLCore, parseBlocksToHTMLCore, parseBlocksToHTMLCore]
    rw [seqToHTMLList_append, seqToHTMLList_cons, hhf]
    show joinSep "" _ = joinSep "" _ ++ joinSep "" _
    rw [joinSep_empty_append, joinSep_empty_cons, String.empty_append]

/-- C10 (witness): instance at a concrete foreign entry (`null` slot). -/
theorem c10_foreign_entries_witness :
    blockToHTML none false 0 = "" ∧
    blockToWPMarkup none 0 = "" ∧
    seqToHTMLList (BlockSeq.nil.append (.cons none .nil)) false 0 =
      seqToHTMLList .nil false 0 ++ [""] ++ seqToHTMLList .nil false 0 ∧
    seqToWPList (BlockSeq.nil.append (.cons none .nil)) 0 =
      seqToWPList .nil 0 ++ [""] ++ seqToWPList .nil 0 ∧
    parseBlocksToHTML (some (BlockSeq.nil.append (.cons none .nil))) false 0 =
      parseBlocksToHTML (some .nil) false 0 ++ parseBlocksToHTML (some .nil) false 0 :=
  c10_foreign_entries .nil .nil none trivial false 0

/-!
Claim C2 — policy priority in the forward transcoder.
-/

/-- C2 (code bug): the Tag Policy Table assigns `loop` the content model
`blocks`, and the repository documentation states a `loop` element is converted
with `contentType: 'blocks'`; but `nodeToBlock` gates the policy branch on
`config?.selfClosing === true`, so the `loop` policy (selfClosing `false`) is
never consulted for the content model and a `loop` with element children falls
through to structural inference, producing `contentType = "html"` with the raw
inner markup and no child blocks. Only the self-closing flag is taken from the
policy. -/
theorem c2_loop_policy_not_applied :
    (getTagConfig "loop").map (·.contentType) = some "blocks" ∧
    obContentType (seqHead (parseHTMLToBlocks (fun _ => 0) 0
      (some "<loop source=\"items\"><div class=\"team-card\"></div></loop>"))) = some "html" ∧
    obContent (seqHead (parseHTMLToBlocks (fun _ => 0) 0
      (some "<loop source=\"items\"><div class=\"team-card\"></div></loop>"))) =
      some "<div class=\"team-card\"></div>" ∧
    (seqHead (parseHTMLToBlocks (fun _ => 0) 0
      (some "<loop source=\"items\"><div class=\"team-card\"></div></loop>"))).map
      (fun b => b.innerBlocks.isNil) = some true ∧
    obSelfClosing (seqHead (parseHTMLToBlocks (fun _ => 0) 0
      (some "<loop source=\"items\"><div class=\"team-card\"></div></loop>"))) = some false :=
  ⟨rfl, rfl, rfl, rfl, rfl⟩

/-!
Claim C4 — dynamic-tag self-closing normalization.
-/

/-- C4: `<set a="b" />` is rewritten before DOM construction to the explicit
empty-element form (the matched attribute span, trailing space included, is
kept verbatim), `<set a="b"></set>` and self-closing tags without a
self-closing policy (`img`, `foo`) are left untouched; both `set` inputs parse
to the same DOM element and therefore yield the same block sequence, whose one
block has `contentType = "empty"` and `selfClosing = true`. -/
theorem c4_selfclosing_normalization (g : Nat → Nat) (ctr : Nat) :
    preprocessSelfClosing "<set a=\"b\" />" = "<set a=\"b\" ></set>" ∧
    preprocessSelfClosing "<set a=\"b\"></set>" = "<set a=\"b\"></set>" ∧
    preprocessSelfClosing "<img src=\"a.png\" />" = "<img src=\"a.png\" />" ∧
    preprocessSelfClosing "<foo bar=\"1\" />" = "<foo bar=\"1\" />" ∧
    parseFragment (preprocessSelfClosing "<set a=\"b\" />") =
      .cons (.elem "set" [("a", "b")] .nil) .nil ∧
    parseFragment (preprocessSelfClosing "<set a=\"b\"></set>") =
      .cons (.elem "set" [("a", "b")] .nil) .nil ∧
    parseHTMLToBlocks g ctr (some "<set a=\"b\" />") =
      parseHTMLToBlocks g ctr (some "<set a=\"b\"></set>") ∧
    obContentType (seqHead (parseHTMLToBlocks g ctr (some "<set a=\"b\" />"))) = some "empty" ∧
    obSelfClosing (seqHead (parseHTMLToBlocks g ctr (some "<set a=\"b\" />"))) = some true :=
  ⟨rfl, rfl, rfl, rfl, rfl, rfl, rfl, rfl, rfl⟩

/-!
Claim C7 — purity and determinism.
-/

/-- C7 (counterexample): the forward transcoder is not deterministic across
runs — each block's `clientId` is drawn from `Math.random`, so two runs of
`parseHTMLToBlocks` on the equal input `<div></div>` whose random draws differ
(the all-zero and the all-one oracle) produce unequal block trees. -/
theorem c7_two_runs_counterexample :
    parseHTMLToBlocks (fun _ => 0) 0 (some "<div></div>") ≠
      parseHTMLToBlocks (fun _ => 1) 0 (some "<div></div>") ∧
    obClientId (seqHead (parseHTMLToBlocks (fun _ => 0) 0 (some "<div></div>"))) =
      some "00000000-0000-4000-8000-000000000000" ∧
    obClientId (seqHead (parseHTMLToBlocks (fun _ => 1) 0 (some "<div></div>"))) =
      some "11111111-1111-4111-9111-111111111111" := by
  refine ⟨fun hEq => ?_, rfl, rfl⟩
  have h1 : obClientId (seqHead (parseHTMLToBlocks (fun _ => 0) 0 (some "<div></div>"))) =
      some "00000000-0000-4000-8000-000000000000" := rfl
  have h2 : obClientId (seqHead (parseHTMLToBlocks (fun _ => 1) 0 (some "<div></div>"))) =
      some "11111111-1111-4111-9111-111111111111" := rfl
  rw [hEq] at h1
  have h3 := Option.some.inj (h1.symm.trans h2)
  exact (by decide : ("00000000-0000-4000-8000-000000000000" : String) ≠
    "11111111-1111-4111-9111-111111111111") h3

/-!
Claim C8 — Markup Serializer self-closing condition.
-/

/-- The single self-closing comment form of the markup serializer: the opening
comment with a slash before the comment close and no body or closing marker. -/
def wpSelfClosingForm (a : BlockAttrs) (indent : Nat) : String :=
  repeatStr "    " indent ++ "<!-- wp:universal/element " ++ attrsJson a ++ " /-->"

/-- The self-closing condition as the claim states it: no inner blocks, and
contentType `empty`, or contentType `text`/`html` with empty content. -/
def wpSelfClosingSpec (b : Block) : Prop :=
  b.innerBlocks = .nil ∧
    (b.attributes.contentType = some "empty" ∨
     (b.attributes.contentType = some "text" ∧ b.attributes.content.getD "" = "") ∨
     (b.attributes.contentType = some "html" ∧ b.attributes.content.getD "" = ""))

theorem wpIsSelfClosing_iff (a : BlockAttrs) (inner : BlockSeq) :
    wpIsSelfClosing a inner = true ↔
      (inner = .nil ∧
        (a.contentType = some "empty" ∨
         (a.contentType = some "text" ∧ a.content.getD "" = "") ∨
         (a.contentType = some "html" ∧ a.content.getD "" = ""))) := by
  cases inner <;>
    simp [wpIsSelfClosing, BlockSeq.isNil, Bool.and_eq_true, Bool.or_eq_true, beq_iff_eq,
      and_comm, or_assoc]

/-- C8: a block of the element kind is serialized by the markup serializer as
the single self-closing comment (`wpSelfClosingForm`) if and
only if it has no inner blocks and its contentType is `empty`, or its
contentType is `text`/`html` with empty content; otherwise the output is the
paired opening/closing comment form (shown here by its strictly greater
length). -/
theorem c8_wp_selfclosing_iff (b : Block) (indent : Nat)
    (h : b.name = "universal/element") :
    blockToWPMarkup (some b) indent = wpSelfClosingForm b.attributes indent ↔
      wpSelfClosingSpec b := by
  obtain ⟨id, nm, v, a, inner⟩ := b
  simp only [Block.name] at h
  subst h
  show blockToWPMarkupMain _ _ = _ ↔ _
  rw [wpSelfClosingSpec]
  simp only [Block.attributes, Block.innerBlocks]
  rw [blockToWPMarkupMain]
  simp only [if_pos rfl]
  rw [← wpIsSelfClosing_iff a inner]
  by_cases hsc : wpIsSelfClosing a inner = true
  · rw [if_pos hsc]
    simp only [hsc, iff_true]
    rfl
  · rw [if_neg hsc]
    simp only [hsc, iff_false, Bool.false_eq_true]
    intro hEq
    have l1 : ("<!-- wp:universal/element " : String).length = 26 := rfl
    have l2 : (" -->" : String).length = 4 := rfl
    have l3 : (" /-->" : String).length = 5 := rfl
    have l4 : ("<!-- /wp:universal/element -->" : String).length = 30 := rfl
    have l5 : ("\n" : String).length = 1 := rfl
    cases inner with
    | nil =>
      rw [show BlockSeq.nil.isNil = true from rfl] at hEq
      simp only [if_pos] at hEq
      have hlen := congrArg String.length hEq
      rw [wpSelfClosingForm] at hlen
      simp only [String.length_append] at hlen
      rw [l1, l2, l3, l4] at hlen
      omega
    | cons ob tl =>
      rw [show (BlockSeq.cons ob tl).isNil = false from rfl] at hEq
      simp only [Bool.false_eq_true, if_false, if_pos] at hEq
      have hlen := congrArg String.length hEq
      rw [wpSelfClosingForm] at hlen
      simp only [String.length_append] at hlen
      rw [l1, l2, l3, l4, l5] at hlen
      omega

/-- C8 (witness): a childless block with contentType `empty` is serialized as
the single self-closing comment. -/
theorem c8_wp_selfclosing_witness :
    blockToWPMarkup (some (.mk "" "universal/element" true
      { contentType := some "empty" } .nil)) 0 =
      wpSelfClosingForm { contentType := some "empty" } 0 :=
  (c8_wp_selfclosing_iff (.mk "" "universal/element" true
      { contentType := some "empty" } .nil) 0 rfl).mpr ⟨rfl, Or.inl rfl⟩

/-!
Claim C9 — payload exclusivity invariant of forward-produced trees.
-/

/-- `invBlock` lifted to an optional conversion result. -/
def obInv : Option Block → Bool
  | some b => invBlock b
  | none => true

theorem elemClassify_cases (ip : BlockSeq × Nat) (config : Option TagConfig)
    (tagName : String) (children : DomForest) (ctr : Nat) :
    (elemClassify ip config tagName children ctr).2.2.1 = .nil ∨
      ((elemClassify ip config tagName children ctr).1 = "blocks" ∧
        (elemClassify ip config tagName children ctr).2.2.1 = ip.1) := by
  unfold elemClassify
  split
  · exact Or.inl rfl
  split
  · exact Or.inl rfl
  split
  · exact Or.inl rfl
  split
  · exact Or.inr ⟨rfl, rfl⟩
  split
  · exact Or.inl rfl
  split
  · exact Or.inl rfl
  · exact Or.inl rfl

theorem invBlock_mk (id : String) (bn tn cat : Option String) (sc : Option Bool)
    (ga : Option (List (String × String))) (ui : Option UiState) (cn : Option String)
    (ct co : String) (inner : BlockSeq)
    (h : inner = .nil ∨ (ct = "blocks" ∧ invSeq inner = true)) :
    invBlock (.mk id "universal/element" true
      { blockName := bn, tagName := tn, category := cat, contentType := some ct,
        selfClosing := sc, globalAttrs := ga, uiState := ui, className := cn,
        content := if ct = "text" ∨ ct = "html" then some co else none } inner) = true := by
  rw [invBlock]
  rcases h with h | ⟨hct, hinv⟩
  · subst h
    by_cases hc : ct = "text" ∨ ct = "html"
    · rcases hc with hc | hc <;> subst hc <;> simp [BlockSeq.isNil, invSeq]
    · simp [BlockSeq.isNil, invSeq, if_neg hc]
  · subst hct
    simp [BlockSeq.isNil, hinv]

mutual
theorem nodeToBlock_inv : ∀ (n : DomNode) (g : Nat → Nat) (ctr : Nat),
    obInv (nodeToBlock g n ctr).1 = true
  | .text s, g, ctr => by
    rw [nodeToBlock]
    by_cases hs : jsTrim s = ""
    · simp only [hs, if_pos rfl]
      rfl
    · rw [if_neg hs]
      simp [obInv, invBlock, BlockSeq.isNil, invSeq]
  | .elem tag attrs children, g, ctr => by
    rw [nodeToBlock]
    rw [obInv]
    exact invBlock_mk _ _ _ _ _ _ _ _ _ _ _
      (by
        rcases elemClassify_cases (nodesToBlocks g children ctr)
            (getTagConfig (jsToLower tag)) (jsToLower tag) children ctr with h | ⟨h1, h2⟩
        · exact Or.inl h
        · exact Or.inr ⟨h1, h2 ▸ nodesToBlocks_inv children g ctr⟩)
termination_by structural n => n

theorem nodesToBlocks_inv : ∀ (f : DomForest) (g : Nat → Nat) (ctr : Nat),
    invSeq (nodesToBlocks g f ctr).1 = true
  | .nil, g, ctr => rfl
  | .cons hd tl, g, ctr => by
    have h1 := nodeToBlock_inv hd g ctr
    have h2 := nodesToBlocks_inv tl g (nodeToBlock g hd ctr).2
    rw [nodesToBlocks]
    cases hob : (nodeToBlock g hd ctr).1 with
    | some b =>
      rw [hob] at h1
      rw [obInv] at h1
      simp only [hob]
      simp [invSeq, h1, h2]
    | none =>
      simp only [hob]
      exact h2
termination_by structural f => f
end

/-- C9: every block in every tree produced by the forward transcoder satisfies
the payload-exclusivity invariant — a non-empty `content` only with contentType
`text`/`html`, non-empty `innerBlocks` only with contentType `blocks`, and
never both at once. -/
theorem c9_payload_exclusivity (g : Nat → Nat) (ctr : Nat) (f : DomForest)
    (html : Option String) :
    invSeq (nodesToBlocks g f ctr).1 = true ∧
      invSeq (parseHTMLToBlocks g ctr html) = true := by
  refine ⟨nodesToBlocks_inv f g ctr, ?_⟩
  match html with
  | none => rfl
  | some s =>
    by_cases hs : s = "" <;>
      simp [parseHTMLToBlocks, hs, nodesToBlocks_inv, invSeq]

/-!
Claim C3 — structural classification with no policy override.
-/

/-- `innerBlocks` of an optional conversion result. -/
def obInnerBlocks (ob : Option Block) : Option BlockSeq :=
  ob.map Block.innerBlocks

/-- C3: for an element whose (lowercased) tag has no Tag Policy entry, the
forward transcoder classifies as the claim states: a void element is `empty`;
`svg` is `html` with the inner markup verbatim; otherwise, with element
children and a container tag it is `blocks` with each child recursively
transcoded in document order; with element children and a non-container tag it
is `html` with the inner markup verbatim; with no element children but
non-whitespace text it is `text` with the full (untrimmed) text content; else
it is `empty`. -/
theorem c3_structural_classification (g : Nat → Nat) (ctr : Nat) (tag : String)
    (attrs : List (String × String)) (children : DomForest)
    (hcfg : getTagConfig (jsToLower tag) = none) :
    (fwdVoidElements.contains (jsToLower tag) = true →
      obContentType (nodeToBlock g (.elem tag attrs children) ctr).1 = some "empty" ∧
      obContent (nodeToBlock g (.elem tag attrs children) ctr).1 = none ∧
      obInnerBlocks (nodeToBlock g (.elem tag attrs children) ctr).1 = some .nil) ∧
    (jsToLower tag = "svg" →
      obContentType (nodeToBlock g (.elem tag attrs children) ctr).1 = some "html" ∧
      obContent (nodeToBlock g (.elem tag attrs children) ctr).1 =
        some (domForestHTML children) ∧
      obInnerBlocks (nodeToBlock g (.elem tag attrs children) ctr).1 = some .nil) ∧
    (fwdVoidElements.contains (jsToLower tag) = false → jsToLower tag ≠ "svg" →
      (hasChildElements children = true → containerElements.contains (jsToLower tag) = true →
        obContentType (nodeToBlock g (.elem tag attrs children) ctr).1 = some "blocks" ∧
        obContent (nodeToBlock g (.elem tag attrs children) ctr).1 = none ∧
        obInnerBlocks (nodeToBlock g (.elem tag attrs children) ctr).1 =
          some (nodesToBlocks g children ctr).1) ∧
      (hasChildElements children = true → containerElements.contains (jsToLower tag) = false →
        obContentType (nodeToBlock g (.elem tag attrs children) ctr).1 = some "html" ∧
        obContent (nodeToBlock g (.elem tag attrs children) ctr).1 =
          some (domForestHTML children) ∧
        obInnerBlocks (nodeToBlock g (.elem tag attrs children) ctr).1 = some .nil) ∧
      (hasChildElements children = false → hasTextContent children = true →
        obContentType (nodeToBlock g (.elem tag attrs children) ctr).1 = some "text" ∧
        obContent (nodeToBlock g (.elem tag attrs children) ctr).1 =
          some (domForestText children) ∧
        obInnerBlocks (nodeToBlock g (.elem tag attrs children) ctr).1 = some .nil) ∧
      (hasChildElements children = false → hasTextContent children = false →
        obContentType (nodeToBlock g (.elem tag attrs children) ctr).1 = some "empty" ∧
        obContent (nodeToBlock g (.elem tag attrs children) ctr).1 = none ∧
        obInnerBlocks (nodeToBlock g (.elem tag attrs children) ctr).1 = some .nil)) := by
  have hdyn : ((getTagConfig (jsToLower tag)).map (·.selfClosing) == some true) = false := by
    rw [hcfg]; rfl
  refine ⟨?_, ?_, fun hv hsvg => ⟨?_, ?_, ?_, ?_⟩⟩
  · intro hvoid
    have hmem : jsToLower tag ∈ fwdVoidElements := by simpa using hvoid
    rw [nodeToBlock]
    unfold elemClassify
    simp [obContentType, obContent, obInnerBlocks, Block.attributes, Block.innerBlocks,
      hdyn, hmem]
  · intro hsvg
    have hnv : jsToLower tag ∉ fwdVoidElements := by rw [hsvg]; decide
    rw [nodeToBlock]
    unfold elemClassify
    simp [obContentType, obContent, obInnerBlocks, Block.attributes, Block.innerBlocks,
      hdyn, hnv, hsvg, show getTagConfig "svg" = none from rfl,
      show "svg" ∉ fwdVoidElements from by decide]
  all_goals
    have hnv : jsToLower tag ∉ fwdVoidElements := by simpa using hv
  · intro hel hcont
    have hc : jsToLower tag ∈ containerElements := by simpa using hcont
    rw [nodeToBlock]
    unfold elemClassify
    simp [obContentType, obContent, obInnerBlocks, Block.attributes, Block.innerBlocks,
      hdyn, hnv, hsvg, hel, hc]
  · intro hel hcont
    have hc : jsToLower tag ∉ containerElements := by simpa using hcont
    rw [nodeToBlock]
    unfold elemClassify
    simp [obContentType, obContent, obInnerBlocks, Block.attributes, Block.innerBlocks,
      hdyn, hnv, hsvg, hel, hc]
  · intro hel htxt
    rw [nodeToBlock]
    unfold elemClassify
    simp [obContentType, obContent, obInnerBlocks, Block.attributes, Block.innerBlocks,
      hdyn, hnv, hsvg, hel, htxt]
  · intro hel htxt
    rw [nodeToBlock]
    unfold elemClassify
    simp [obContentType, obContent, obInnerBlocks, Block.attributes, Block.innerBlocks,
      hdyn, hnv, hsvg, hel, htxt]

/-- C3 (witness): instances of the classification at concrete elements — an
`h1` with only text is classified `text` with the untrimmed text content, and
an empty `span` is classified `empty`. -/
theorem c3_structural_classification_witness :
    (obContentType (nodeToBlock (fun _ => 0) (.elem "h1" []
        (.cons (.text "Hi") .nil)) 0).1 = some "text" ∧
      obContent (nodeToBlock (fun _ => 0) (.elem "h1" []
        (.cons (.text "Hi") .nil)) 0).1 =
        some (domForestText (.cons (.text "Hi") .nil)) ∧
      obInnerBlocks (nodeToBlock (fun _ => 0) (.elem "h1" []
        (.cons (.text "Hi") .nil)) 0).1 = some .nil) ∧
    (obContentType (nodeToBlock (fun _ => 0) (.elem "span" [] .nil) 0).1 = some "empty" ∧
      obContent (nodeToBlock (fun _ => 0) (.elem "span" [] .nil) 0).1 = none ∧
      obInnerBlocks (nodeToBlock (fun _ => 0) (.elem "span" [] .nil) 0).1 = some .nil) :=
  ⟨((c3_structural_classification (fun _ => 0) 0 "h1" []
      (.cons (.text "Hi") .nil) rfl).2.2 rfl (by decide)).2.2.1 rfl rfl,
   ((c3_structural_classification (fun _ => 0) 0 "span" [] .nil rfl).2.2 rfl
      (by decide)).2.2.2 rfl rfl⟩

theorem elemClassify_ct_co (ip ip' : BlockSeq × Nat) (config : Option TagConfig)
    (tagName : String) (children : DomForest) (ctr ctr' : Nat) :
    (elemClassify ip config tagName children ctr).1 =
      (elemClassify ip' config tagName children ctr').1 ∧
    (elemClassify ip config tagName children ctr).2.1 =
      (elemClassify ip' config tagName children ctr').2.1 := by
  unfold elemClassify
  split_ifs <;> simp

theorem elemClassify_inner_strip (ip ip' : BlockSeq × Nat) (config : Option TagConfig)
    (tagName : String) (children : DomForest) (ctr ctr' : Nat)
    (h : stripSeq ip.1 = stripSeq ip'.1) :
    stripSeq (elemClassify ip config tagName children ctr).2.2.1 =
      stripSeq (elemClassify ip' config tagName children ctr').2.2.1 := by
  unfold elemClassify
  split_ifs <;> first | rfl | exact h

mutual
theorem nodeToBlock_strip : ∀ (n : DomNode) (g₁ g₂ : Nat → Nat) (c₁ c₂ : Nat),
    ((nodeToBlock g₁ n c₁).1).map stripBlock = ((nodeToBlock g₂ n c₂).1).map stripBlock
  | .text s, g₁, g₂, c₁, c₂ => by
    rw [nodeToBlock, nodeToBlock]
    by_cases hs : jsTrim s = ""
    · rw [if_pos hs, if_pos hs]
    · rw [if_neg hs, if_neg hs]
      simp [stripBlock, stripSeq]
  | .elem tag attrs children, g₁, g₂, c₁, c₂ => by
    have ih := nodesToBlocks_strip children g₁ g₂ c₁ c₂
    have hct := (elemClassify_ct_co (nodesToBlocks g₁ children c₁) (nodesToBlocks g₂ children c₂)
      (getTagConfig (jsToLower tag)) (jsToLower tag) children c₁ c₂).1
    have hco := (elemClassify_ct_co (nodesToBlocks g₁ children c₁) (nodesToBlocks g₂ children c₂)
      (getTagConfig (jsToLower tag)) (jsToLower tag) children c₁ c₂).2
    have hinner := elemClassify_inner_strip (nodesToBlocks g₁ children c₁)
      (nodesToBlocks g₂ children c₂) (getTagConfig (jsToLower tag)) (jsToLower tag)
      children c₁ c₂ ih
    rw [nodeToBlock, nodeToBlock]
    show some _ = some _
    simp only [Option.some.injEq, stripBlock]
    rw [hct, hco, hinner]
termination_by structural n => n

theorem nodesToBlocks_strip : ∀ (f : DomForest) (g₁ g₂ : Nat → Nat) (c₁ c₂ : Nat),
    stripSeq (nodesToBlocks g₁ f c₁).1 = stripSeq (nodesToBlocks g₂ f c₂).1
  | .nil, _, _, _, _ => rfl
  | .cons hd tl, g₁, g₂, c₁, c₂ => by
    have hnode := nodeToBlock_strip hd g₁ g₂ c₁ c₂
    have htl := nodesToBlocks_strip tl g₁ g₂ (nodeToBlock g₁ hd c₁).2 (nodeToBlock g₂ hd c₂).2
    rw [nodesToBlocks, nodesToBlocks]
    cases h₁ : (nodeToBlock g₁ hd c₁).1 with
    | none =>
      cases h₂ : (nodeToBlock g₂ hd c₂).1 with
      | none => simp only [h₁, h₂]; exact htl
      | some b₂ =>
        rw [h₁, h₂] at hnode
        simp only [Option.map_none', Option.map_some'] at hnode
        exact Option.noConfusion hnode
    | some b₁ =>
      cases h₂ : (nodeToBlock g₂ hd c₂).1 with
      | none =>
        rw [h₁, h₂] at hnode
        simp only [Option.map_none', Option.map_some'] at hnode
        exact Option.noConfusion hnode
      | some b₂ =>
        rw [h₁, h₂] at hnode
        simp only [Option.map_some', Option.some.injEq] at hnode
        simp only [h₁, h₂]
        rw [stripSeq, stripSeq, hnode, htl]
termination_by structural f => f
end

theorem stripSeq_isNil : ∀ (s : BlockSeq), (stripSeq s).isNil = s.isNil
  | .nil => rfl
  | .cons (some _) _ => rfl
  | .cons none _ => rfl

mutual
theorem blockToHTMLMain_strip : ∀ (b : Block) (pretty : Bool) (indent : Nat),
    blockToHTMLMain (stripBlock b) pretty indent = blockToHTMLMain b pretty indent
  | .mk c n v a inner, pretty, indent => by
    have ih := seqToHTMLList_strip inner pretty (indent + 1)
    rw [stripBlock, blockToHTMLMain, blockToHTMLMain]
    rw [stripSeq_isNil, ih]
termination_by structural b => b

theorem seqToHTMLList_strip : ∀ (s : BlockSeq) (pretty : Bool) (indent : Nat),
    seqToHTMLList (stripSeq s) pretty indent = seqToHTMLList s pretty indent
  | .nil, _, _ => rfl
  | .cons (some b) tl, pretty, indent => by
    rw [stripSeq, seqToHTMLList, seqToHTMLList,
      blockToHTMLMain_strip b pretty indent, seqToHTMLList_strip tl pretty indent]
  | .cons none tl, pretty, indent => by
    rw [stripSeq, seqToHTMLList, seqToHTMLList, seqToHTMLList_strip tl pretty indent]
termination_by structural s => s
end

/-- C7 (amended): the two directions are deterministic up to client ids — two
runs of the forward transcoder on equal inputs, with any random draws and
counter states, produce block trees that are equal after erasing every
`clientId`; and the reverse transcoder's output does not depend on the
`clientId` fields at all. -/
theorem c7_deterministic_up_to_ids (g₁ g₂ : Nat → Nat) (c₁ c₂ : Nat)
    (html : Option String) (blocks : BlockSeq) (pretty : Bool) (indent : Nat) :
    stripSeq (parseHTMLToBlocks g₁ c₁ html) = stripSeq (parseHTMLToBlocks g₂ c₂ html) ∧
    parseBlocksToHTML (some (stripSeq blocks)) pretty indent =
      parseBlocksToHTML (some blocks) pretty indent := by
  constructor
  · match html with
    | none => rfl
    | some s =>
      by_cases hs : s = ""
      · simp [parseHTMLToBlocks, hs]
      · simp only [parseHTMLToBlocks, hs, if_neg hs]
        exact nodesToBlocks_strip _ g₁ g₂ c₁ c₂
  · show parseBlocksToHTMLCore _ _ _ = parseBlocksToHTMLCore _ _ _
    rw [parseBlocksToHTMLCore, parseBlocksToHTMLCore, seqToHTMLList_strip]

/-!
Claim C1 — semantic round-trip on element-only container documents.
-/

/-- The `className` variable of `nodeToBlock` as a function of the attribute
list: the last `class` value seen (JS loop semantics). -/
def lastClassVal : List (String × String) → String → String
  | [], cn => cn
  | (n, v) :: tl, cn => if n = "class" then lastClassVal tl v else lastClassVal tl cn

theorem container_facts (t : String) (h : containerElements.contains t = true) :
    jsToLower t = t ∧ getTagConfig t = none ∧ fwdVoidElements.contains t = false ∧
      t ≠ "svg" ∧ isVoidElement t = false := by
  have hm : t ∈ containerElements := by simpa using h
  fin_cases hm <;> refine ⟨rfl, rfl, rfl, by decide, rfl⟩

theorem optIf_getD (cn : String) : (if cn ≠ "" then some cn else none).getD "" = cn := by
  by_cases h : cn = "" <;> simp [h]

theorem string_mk_toList (s : String) : String.mk s.toList = s := rfl

theorem escapeAttributeName_plain (n : String)
    (h : n.toList.all (fun c => c.isAlphanum || c = '-' || c = '_') = true) :
    escapeAttributeName n = n := by
  rw [escapeAttributeName, List.filter_eq_self.mpr (List.all_eq_true.mp h), string_mk_toList]

theorem lastClassVal_no_class : ∀ (l : List (String × String)) (cn : String),
    l.any (fun p => p.1 = "class") = false → lastClassVal l cn = cn
  | [], cn, _ => rfl
  | (n, v) :: tl, cn, h => by
    simp only [List.any_cons, Bool.or_eq_false_iff] at h
    rw [lastClassVal, if_neg (by simpa using h.1), lastClassVal_no_class tl cn h.2]

theorem lastClassVal_eq_find : ∀ (l : List (String × String)),
    noDupKeys l = true →
    lastClassVal l "" = (match l.find? (fun p => p.1 = "class") with
      | some p => p.2
      | none => "")
  | [], _ => rfl
  | (n, v) :: tl, h => by
    simp only [noDupKeys, Bool.and_eq_true] at h
    by_cases hc : n = "class"
    · subst hc
      rw [lastClassVal, if_pos rfl]
      rw [List.find?_cons_of_pos _ (by simp)]
      exact lastClassVal_no_class tl v (by simpa using h.1)
    · rw [lastClassVal, if_neg hc]
      rw [List.find?_cons_of_neg _ (by simpa using hc)]
      exact lastClassVal_eq_find tl h.2

theorem setKey_fresh (l : List (String × String)) (k v : String)
    (h : l.any (fun p => p.1 = k) = false) : setKey l k v = l ++ [(k, v)] := by
  rw [setKey, if_neg (by simp [h])]

theorem extractAttrsGo_simple : ∀ (attrs ga : List (String × String)) (cn : String),
    noDupKeys attrs = true → attrs.all plainAttr = true →
    (∀ p ∈ attrs, ga.any (fun q => q.1 = p.1) = false) →
    extractAttrsGo attrs ga cn =
      (ga ++ attrs.filter (fun p => p.1 ≠ "class"), lastClassVal attrs cn)
  | [], ga, cn, _, _, _ => by simp [extractAttrsGo, lastClassVal]
  | (n, v) :: tl, ga, cn, hnd, hall, hfresh => by
    simp only [noDupKeys, Bool.and_eq_true] at hnd
    simp only [List.all_cons, Bool.and_eq_true] at hall
    have hplain := hall.1
    simp only [plainAttr, Bool.and_eq_true, decide_eq_true_eq] at hplain
    have hnodup : ∀ q ∈ tl, ¬(q.1 = n) := by
      have h1 := hnd.1
      simp only [Bool.not_eq_eq_eq_not, Bool.not_true] at h1
      intro q hq
      have := List.any_eq_false.mp h1 q hq
      simpa using this
    by_cases hc : n = "class"
    · subst hc
      rw [extractAttrsGo, if_pos rfl]
      rw [extractAttrsGo_simple tl ga v hnd.2 hall.2
        (fun p hp => hfresh p (List.mem_cons_of_mem _ hp))]
      rw [lastClassVal, if_pos rfl, List.filter_cons_of_neg (by simp)]
    · rw [extractAttrsGo, if_neg hc, if_neg hplain.1.2]
      rw [setKey_fresh ga n v (hfresh (n, v) (List.mem_cons_self _ _))]
      rw [extractAttrsGo_simple tl (ga ++ [(n, v)]) cn hnd.2 hall.2 ?_]
      · rw [lastClassVal, if_neg hc]
        rw [List.filter_cons_of_pos (by simpa using hc), List.append_assoc]
        rfl
      · intro p hp
        simp only [List.any_append, Bool.or_eq_false_iff]
        refine ⟨hfresh p (List.mem_cons_of_mem _ hp), ?_⟩
        simp only [List.any_cons, List.any_nil, Bool.or_false]
        simpa using fun h => hnodup p hp h.symm

theorem extractAttrs_simple (attrs : List (String × String))
    (hnd : noDupKeys attrs = true) (hall : attrs.all plainAttr = true) :
    extractAttrs attrs =
      (attrs.filter (fun p => p.1 ≠ "class"), lastClassVal attrs "") := by
  rw [extractAttrs, extractAttrsGo_simple attrs [] "" hnd hall (by simp)]
  simp

theorem simple_attrString (attrs : List (String × String))
    (hnd : noDupKeys attrs = true) (hall : attrs.all plainAttr = true) :
    buildAttributesString (lastClassVal attrs "") (attrs.filter (fun p => p.1 ≠ "class")) =
      renderAttrs attrs := by
  rw [buildAttributesString, buildAttrsGo_eq, renderAttrs]
  have hallp : ∀ p ∈ attrs, p.1 ≠ "" ∧ p.2 ≠ "" ∧ p.1 ≠ "style" ∧
      p.1.toList.all (fun c => c.isAlphanum || c = '-' || c = '_') = true := by
    intro p hp
    have := List.all_eq_true.mp hall p hp
    simp only [plainAttr, Bool.and_eq_true, decide_eq_true_eq] at this
    exact ⟨this.1.1.1, this.1.1.2, this.1.2, this.2⟩
  congr 1
  · rw [lastClassVal_eq_find attrs hnd]
    cases hf : attrs.find? (fun p => p.1 = "class") with
    | none => simp
    | some p =>
      have hp : p ∈ attrs := List.mem_of_find?_eq_some hf
      simp only
      rw [if_pos (hallp p hp).2.1]
  · congr 1
    apply List.map_congr_left
    intro p hp
    have hpa := hallp p (List.mem_of_mem_filter hp)
    rw [if_pos ⟨hpa.1, hpa.2.1⟩, escapeAttributeName_plain p.1 hpa.2.2.2]

theorem core_innerContent (inner : BlockSeq) (i : Nat) :
    (if inner.isNil then "" else joinSep "" (seqToHTMLList inner false (i + 1))) =
      parseBlocksToHTMLCore inner false (i + 1) := by
  cases inner with
  | nil => rfl
  | cons ob tl => rfl

theorem nodeToBlock_elem_some (g : Nat → Nat) (tag : String)
    (attrs : List (String × String)) (children : DomForest) (ctr : Nat) :
    ∃ b, (nodeToBlock g (.elem tag attrs children) ctr).1 = some b :=
  ⟨_, by rw [nodeToBlock]⟩

theorem simpleForest_head_elem (hd : DomNode) (tl : DomForest)
    (h : isSimpleForest (.cons hd tl) = true) :
    hasChildElements (.cons hd tl) = true := by
  rw [isSimpleForest] at h
  simp only [Bool.and_eq_true] at h
  cases hd with
  | text s => rw [isSimpleNode] at h; exact absurd h.1 (by simp)
  | elem t a ch => rfl

theorem elemClassify_none_nil (ip : BlockSeq × Nat) (t : String) (ctr : Nat)
    (hnv : t ∉ fwdVoidElements) (hsvg : t ≠ "svg") :
    elemClassify ip none t .nil ctr = ("empty", "", .nil, ctr) := by
  unfold elemClassify
  rw [if_neg (by simp), if_neg (by simpa using hnv), if_neg hsvg]
  simp [hasChildElements, hasTextContent]

theorem elemClassify_none_container_cons (ip : BlockSeq × Nat) (t : String)
    (hd : DomNode) (tl : DomForest) (ctr : Nat)
    (hnv : t ∉ fwdVoidElements) (hsvg : t ≠ "svg") (hmem : t ∈ containerElements)
    (hce : hasChildElements (.cons hd tl) = true) :
    elemClassify ip none t (.cons hd tl) ctr = ("blocks", "", ip.1, ip.2) := by
  unfold elemClassify
  rw [if_neg (by simp), if_neg (by simpa using hnv), if_neg hsvg,
    if_pos (by simp [hce, hmem])]

mutual
theorem simpleNode_roundtrip : ∀ (n : DomNode) (g : Nat → Nat) (c i : Nat),
    isSimpleNode n = true →
    blockToHTML ((nodeToBlock g n c).1) false i = renderNode n
  | .text s, g, c, i, h => by
    rw [isSimpleNode] at h
    exact absurd h (by simp)
  | .elem t a ch, g, c, i, h => by
    rw [isSimpleNode] at h
    simp only [Bool.and_eq_true] at h
    obtain ⟨⟨⟨hcont, hnd⟩, hall⟩, hch⟩ := h
    obtain ⟨hlow, hcfg, hvoid, hsvg, hvoidr⟩ := container_facts t hcont
    have hnv : t ∉ fwdVoidElements := by simpa using hvoid
    have hmem : t ∈ containerElements := by simpa using hcont
    have hea := extractAttrs_simple a hnd hall
    have hattr := simple_attrString a hnd hall
    rw [nodeToBlock]
    rw [hlow]
    rw [hcfg]
    cases ch with
    | nil =>
      rw [elemClassify_none_nil _ t c hnv hsvg]
      rw [blockToHTML, blockToHTMLMain]
      simp only [hea, Option.getD_some, optIf_getD, if_pos rfl]
      rw [hattr]
      simp only [hcfg, hvoidr]
      rw [renderNode, renderForest]
      simp [String.empty_append, hnv]
    | cons ch1 cht =>
      have hce := simpleForest_head_elem ch1 cht hch
      have ih := simpleForest_roundtrip (.cons ch1 cht) g c (i + 1) hch
      rw [elemClassify_none_container_cons _ t ch1 cht c hnv hsvg hmem hce]
      rw [blockToHTML, blockToHTMLMain]
      simp only [hea, Option.getD_some, optIf_getD, if_pos rfl]
      rw [hattr]
      simp only [hcfg, hvoidr]
      rw [renderNode]
      simp only [if_true, hvoid, Bool.or_false, Bool.false_eq_true, if_false, false_and,
        show (("blocks" : String) = "text" ∨ ("blocks" : String) = "html") = False from by simp]
      rw [core_innerContent, ih]
      simp [String.empty_append]
termination_by structural n => n

theorem simpleForest_roundtrip : ∀ (f : DomForest) (g : Nat → Nat) (c i : Nat),
    isSimpleForest f = true →
    parseBlocksToHTMLCore (nodesToBlocks g f c).1 false i = renderForest f
  | .nil, g, c, i, _ => rfl
  | .cons hd tl, g, c, i, h => by
    rw [isSimpleForest] at h
    simp only [Bool.and_eq_true] at h
    have ihn := simpleNode_roundtrip hd g c i h.1
    have ihf := simpleForest_roundtrip tl g (nodeToBlock g hd c).2 i h.2
    have hel : ∃ tg aa cc, hd = DomNode.elem tg aa cc := by
      cases hd with
      | text s => rw [isSimpleNode] at h; exact absurd h.1 (by simp)
      | elem tg aa cc => exact ⟨tg, aa, cc, rfl⟩
    obtain ⟨tg, aa, cc, rfl⟩ := hel
    obtain ⟨b, hb⟩ := nodeToBlock_elem_some g tg aa cc c
    rw [nodesToBlocks]
    simp only [hb]
    rw [parseBlocksToHTMLCore] at ihf ⊢
    simp only [Bool.false_eq_true, if_false] at ihf ⊢
    rw [seqToHTMLList_cons, joinSep_empty_cons]
    rw [renderForest]
    rw [hb] at ihn
    rw [ihn, ihf]
termination_by structural f => f
end

/-- A concrete element-only container document used as round-trip witness. -/
def c1doc : DomForest :=
  .cons (.elem "section" [("class", "hero")]
    (.cons (.elem "div" [] .nil) .nil)) .nil

/-- C1: for an element-only document built from container tags with plain
attributes (`isSimpleForest`), the forward transcoder followed by the reverse
transcoder yields exactly the canonical serialization `renderForest` of the
input document — a document with the same tag names, the same attribute sets
and the same nesting, where only the class-first attribute order, quoting and
escaping are normalized. Stated both for the string pipeline (via the modelled
external parser) and directly for the DOM-level forward conversion. -/
theorem c1_roundtrip (f : DomForest) (g : Nat → Nat) (ctr indent : Nat) (s : String)
    (hf : isSimpleForest f = true) (hs : s ≠ "")
    (hparse : parseFragment (preprocessSelfClosing s) = f) :
    parseBlocksToHTML (some (parseHTMLToBlocks g ctr (some s))) false indent = renderForest f ∧
    parseBlocksToHTML (some (nodesToBlocks g f ctr).1) false indent = renderForest f := by
  constructor
  · rw [parseHTMLToBlocks]
    rw [if_neg hs, hparse]
    exact simpleForest_roundtrip f g ctr indent hf
  · exact simpleForest_roundtrip f g ctr indent hf

/-- C1 (witness): the concrete document
`<section class="hero"><div></div></section>` round-trips; here the reverse
output even equals the input byte for byte. -/
theorem c1_roundtrip_witness :
    isSimpleForest c1doc = true ∧
    parseBlocksToHTML (some (parseHTMLToBlocks (fun _ => 0) 0
      (some "<section class=\"hero\"><div></div></section>"))) false 0 = renderForest c1doc ∧
    renderForest c1doc = "<section class=\"hero\"><div></div></section>" :=
  ⟨by decide,
   (c1_roundtrip c1doc (fun _ => 0) 0 0 "<section class=\"hero\"><div></div></section>"
     (by decide) (by decide) rfl).1,
   rfl⟩
